import Mathlib

/-!
Verification of the `effective-python` study notebook (`src/notepad.py`).

The notebook is a flat script of independent pedagogical snippets.  Each
claim below concerns one snippet; the snippet's functions and classes are
shallowly embedded here.  Python numbers are modelled as exact rationals
(`ℚ`), Python exceptions as an explicit error type returned through
`Except`, and mutation as explicit state passing.
-/

set_option maxRecDepth 4000

namespace Notepad

/-- Python exceptions appearing in the snippets we model.  `typeError`
covers a call that fails to bind a required parameter, which Python raises
before the function body runs. -/
inductive PyErr where
  | zeroDivisionError
  | valueError (msg : String)
  | overflowError
  | typeError (msg : String)
  deriving DecidableEq, Repr

/-- Python values returned by the division snippets: `None` or a number. -/
inductive PyVal where
  | none
  | num (q : ℚ)
  deriving DecidableEq, Repr

/-- Python division `a / b` on numbers: raises `ZeroDivisionError` exactly
when `b == 0`, otherwise evaluates to the quotient. -/
def pyDiv (a b : ℚ) : Except PyErr ℚ :=
  if b = 0 then .error .zeroDivisionError else .ok (a / b)

/-- The final annotated version of `careful_divide` (Item 20):
`try: return a / b` and `except ZeroDivisionError: raise ValueError`.  The
`ValueError` message in the source is the string `Invalid inputs`. -/
def careful_divide (a b : ℚ) : Except PyErr PyVal :=
  match pyDiv a b with
  | .ok q => .ok (.num q)
  | .error .zeroDivisionError => .error (.valueError "Invalid inputs")
  | .error e => .error e

/-- C1: the final annotated `careful_divide(a, b)` raises `ValueError` if and
only if `b == 0`; otherwise it returns `a / b`; and it never returns `None`
to signal the error case. -/
theorem careful_divide_spec (a b : ℚ) :
    (careful_divide a b = .error (.valueError "Invalid inputs") ↔ b = 0) ∧
    (b ≠ 0 → careful_divide a b = .ok (.num (a / b))) ∧
    careful_divide a b ≠ .ok .none := by
  unfold careful_divide pyDiv
  by_cases hb : b = 0 <;> simp [hb]

/-- C1 witness: `careful_divide` at the concrete inputs `a = 5, b = 2` (from
the snippet) and `b = 0`. -/
theorem careful_divide_spec_witness :
    careful_divide 5 2 = .ok (.num (5 / 2)) ∧
    careful_divide 5 0 = .error (.valueError "Invalid inputs") := by
  refine ⟨(careful_divide_spec 5 2).2.1 (by norm_num), ?_⟩
  exact (careful_divide_spec 5 0).1.mpr rfl

/-- Results of `safe_division_c` (Item 25): a finite number or `float('inf')`. -/
inductive DivResult where
  | num (q : ℚ)
  | inf
  deriving DecidableEq, Repr

/-- The body of `safe_division_c` once both keyword-only parameters are
bound: `try: return number / divisor`, returning `0` on an ignored
`OverflowError` and `float('inf')` on an ignored `ZeroDivisionError`,
re-raising otherwise.  (With numbers modelled as exact rationals, `pyDiv`
never overflows, but the handler is kept as in the source.) -/
def safe_division_c_body (number divisor : ℚ)
    (ignore_overflow ignore_zero_division : Bool) : Except PyErr DivResult :=
  match pyDiv number divisor with
  | .ok q => .ok (.num q)
  | .error .overflowError =>
      if ignore_overflow then .ok (.num 0) else .error .overflowError
  | .error .zeroDivisionError =>
      if ignore_zero_division then .ok .inf else .error .zeroDivisionError
  | .error e => .error e

/-- A call to `safe_division_c(number, divisor, ...)`: the bare `*` in the
source's parameter list makes `ignore_overflow` and `ignore_zero_division`
keyword-only, and the source gives them NO default values, so Python raises
`TypeError` before the body runs unless the call binds both (`none` models
an omitted keyword argument). -/
def safe_division_c (number divisor : ℚ)
    (ignore_overflow ignore_zero_division : Option Bool) : Except PyErr DivResult :=
  match ignore_overflow, ignore_zero_division with
  | some io, some iz => safe_division_c_body number divisor io iz
  | _, _ => .error (.typeError "missing required keyword-only argument")

/-- C5 counterexample: the claim's call `safe_division_c(1.0, 0,
ignore_zero_division=True)` omits `ignore_overflow`, which has no default
in the source's signature, so it raises `TypeError` instead of returning
`float('inf')`, and the inline assert never passes. -/
theorem safe_division_c_counterexample :
    safe_division_c 1 0 none (some true) =
      .error (.typeError "missing required keyword-only argument") ∧
    ¬ safe_division_c 1 0 none (some true) = .ok .inf := by
  exact ⟨rfl, by simp [safe_division_c]⟩

/-- C5 amended: with BOTH keyword-only arguments supplied, `safe_division_c`
returns `float('inf')` on a zero divisor when `ignore_zero_division` is
true, raises `ZeroDivisionError` when it is false, and returns
`number / divisor` on a nonzero divisor (with no overflow); but the claim's
own call omits `ignore_overflow`, which has no default, so it raises
`TypeError` and the inline assert is never reached. -/
theorem safe_division_c_amended (n d : ℚ) (io iz : Bool) :
    (d = 0 → safe_division_c n d (some io) (some iz) =
      if iz then .ok .inf else .error .zeroDivisionError) ∧
    (d ≠ 0 → safe_division_c n d (some io) (some iz) = .ok (.num (n / d))) ∧
    safe_division_c 1 0 none (some true) =
      .error (.typeError "missing required keyword-only argument") := by
  unfold safe_division_c safe_division_c_body pyDiv
  by_cases hd : d = 0 <;> simp [hd]

/-- C5 witness: a zero-divisor call and a nonzero-divisor call with both
keyword-only arguments bound. -/
theorem safe_division_c_amended_witness :
    safe_division_c 1 0 (some false) (some true) = .ok .inf ∧
    safe_division_c 1 2 (some false) (some true) = .ok (.num (1 / 2)) := by
  constructor
  · have h := (safe_division_c_amended 1 0 false true).1 rfl
    simpa using h
  · exact (safe_division_c_amended 1 2 false true).2.1 (by norm_num)

/-- `normalize(numbers)` (Item 30): the percentage of the total contributed
by each entry.  The source builds the result list by appending inside a
`for` loop, which is `List.map` over the input. -/
def normalize (numbers : List ℚ) : List ℚ :=
  let total := numbers.sum
  numbers.map (fun value => 100 * value / total)

/-- Fuel-bounded binary logarithm on naturals; the fuel only bounds the
recursion and `natLog2 n n` computes `⌊log₂ n⌋` for `n ≥ 1`. -/
def natLog2 : ℕ → ℕ → ℕ
  | 0, _ => 0
  | fuel + 1, n => if 2 ≤ n then natLog2 fuel (n / 2) + 1 else 0

/-- `⌊log₂ n⌋` for `n ≥ 1`. -/
def log2Nat (n : ℕ) : ℕ := natLog2 n n

/-- Round `n / d` (naturals, `d > 0`) to the nearest integer, ties to even
— the IEEE-754 default rounding used by CPython floats. -/
def roundDivHalfEven (n d : ℕ) : ℕ :=
  let q := n / d
  let r := n % d
  if 2 * r < d then q
  else if d < 2 * r then q + 1
  else if q % 2 = 0 then q else q + 1

/-- A finite IEEE-754 binary64 value, represented exactly as the dyadic
rational `m * 2^e`.  The fragment the snippet exercises is non-negative
values far from overflow and the subnormal range, which this covers. -/
structure F64 where
  m : ℤ
  e : ℤ
  deriving DecidableEq, Repr

/-- `⌊log₂ (a / b)⌋` for positive naturals `a`, `b`. -/
def ratFloorLog2 (a b : ℕ) : ℤ :=
  if b ≤ a then (log2Nat (a / b) : ℤ)
  else
    let j := log2Nat (b / a)
    if a * 2 ^ j = b then -(j : ℤ) else -(j : ℤ) - 1

/-- Python's true division of positive ints, `a / b`: the exact quotient
rounded to 53 significant bits, nearest, ties to even — the binary64
result CPython produces. -/
def flDivInt (a b : ℤ) : F64 :=
  if a ≤ 0 ∨ b ≤ 0 then ⟨0, 0⟩
  else
    let e : ℤ := ratFloorLog2 a.toNat b.toNat
    let u : ℤ := e - 52
    if u ≤ 0 then ⟨(roundDivHalfEven (a.toNat * 2 ^ (-u).toNat) b.toNat : ℤ), u⟩
    else ⟨(roundDivHalfEven a.toNat (b.toNat * 2 ^ u.toNat) : ℤ), u⟩

/-- Round a non-negative dyadic `m * 2^k` to 53 significant bits. -/
def roundDyad (m : ℤ) (k : ℤ) : F64 :=
  if m ≤ 0 then ⟨m, k⟩
  else
    let j := log2Nat m.toNat
    if j ≤ 52 then ⟨m, k⟩
    else ⟨(roundDivHalfEven m.toNat (2 ^ (j - 52)) : ℤ), k + (j : ℤ) - 52⟩

/-- IEEE-754 binary64 addition: the exact dyadic sum, rounded to 53
significant bits, nearest, ties to even. -/
def flAdd (x y : F64) : F64 :=
  let k := min x.e y.e
  roundDyad (x.m * 2 ^ (x.e - k).toNat + y.m * 2 ^ (y.e - k).toNat) k

/-- Whether two binary64 representations denote the same real value
(Python `==` on finite floats). -/
def F64.valEqB (x y : F64) : Bool :=
  let k := min x.e y.e
  decide (x.m * 2 ^ (x.e - k).toNat = y.m * 2 ^ (y.e - k).toNat)

/-- `normalize` as the program executes it on a list of Python ints:
`total = sum(numbers)` and `100 * value` are exact int arithmetic, and the
division `100 * value / total` produces a binary64 float. -/
def normalize_float (numbers : List ℤ) : List F64 :=
  let total := numbers.sum
  numbers.map (fun value => flDivInt (100 * value) total)

/-- Python's `sum` over the returned floats: starting from int `0`, added
left to right in binary64. -/
def sumFloats (xs : List F64) : F64 := xs.foldl flAdd ⟨0, 0⟩

/-- C7 counterexample: for the positive list of seven `1`s, the program's
float arithmetic returns seven copies of the binary64 value nearest
`100 / 7`, and their float sum is `7036874417766401 * 2^(-46)` — the
double printed `100.00000000000001` — which is not equal to `100.0`: the
percentages do not sum to exactly `100.0` for every positive list. -/
theorem normalize_float_counterexample :
    sumFloats (normalize_float [1, 1, 1, 1, 1, 1, 1]) =
      ⟨7036874417766401, -46⟩ ∧
    F64.valEqB (sumFloats (normalize_float [1, 1, 1, 1, 1, 1, 1]))
      ⟨100, 0⟩ = false := by decide

/-- C7 amended: `normalize` returns `[100 * v / total for v in numbers]`,
and under exact rational arithmetic the percentages of every non-empty
positive list sum to exactly `100`; under the program's binary64 float
arithmetic that exact sum is not guaranteed for every list (see the
counterexample), but it does hold for the snippet's input, so the inline
assert `sum(normalize([15, 35, 80])) == 100.0` passes. -/
theorem normalize_spec_amended :
    (∀ (numbers : List ℚ), numbers ≠ [] → (∀ v ∈ numbers, 0 < v) →
      normalize numbers = numbers.map (fun v => 100 * v / numbers.sum) ∧
      (normalize numbers).sum = 100) ∧
    F64.valEqB (sumFloats (normalize_float [15, 35, 80])) ⟨100, 0⟩ = true := by
  constructor
  · intro numbers hne hpos
    have htot : 0 < numbers.sum := List.sum_pos numbers hpos hne
    refine ⟨rfl, ?_⟩
    show (List.map (fun value => 100 * value / numbers.sum) numbers).sum = 100
    have hmap : (fun value => 100 * value / numbers.sum) =
        fun value => (100 / numbers.sum) * value := by
      funext v; ring
    rw [hmap, List.sum_map_mul_left, show (fun value : ℚ => value) = id from rfl,
      List.map_id]
    field_simp
  · decide

/-- C7 witness: the exact-arithmetic law applied to the snippet's list
`[15, 35, 80]`. -/
theorem normalize_spec_amended_witness : (normalize [15, 35, 80]).sum = 100 :=
  (normalize_spec_amended.1 [15, 35, 80] (by decide) (by decide)).2

/-- The classes of the diamond-inheritance snippet (Item 40). -/
inductive Cls where
  | myBaseClass
  | timesSevenCorrect
  | plusNineCorrect
  | goodWay
  deriving DecidableEq, Repr

/-- The method resolution order of `GoodWay(TimesSevenCorrect,
PlusNineCorrect)` under C3 linearization, as printed by `GoodWay.mro()` in
the snippet (with `object` at the end contributing nothing). -/
def goodWayMRO : List Cls :=
  [.goodWay, .timesSevenCorrect, .plusNineCorrect, .myBaseClass]

/-- Run the zero-argument-`super()` initializer chain along an MRO suffix:
the head class's `__init__` runs, its `super().__init__(value)` call
executing the rest of the MRO; returns the final `self.value`.
`MyBaseClass.__init__` assigns `self.value = value` and calls no `super()`. -/
def runMRO : List Cls → ℤ → ℤ
  | [], value => value
  | .myBaseClass :: _, value => value
  | .timesSevenCorrect :: rest, value => runMRO rest value * 7
  | .plusNineCorrect :: rest, value => runMRO rest value + 9
  | .goodWay :: rest, value => runMRO rest value

/-- `GoodWay(value).value`. -/
def GoodWay_value (value : ℤ) : ℤ := runMRO goodWayMRO value

/-- `MyBaseClass.__init__(self, value)`: sets `self.value` to the argument,
discarding the previous attribute state. -/
def myBaseClass_init (value _self_value : ℤ) : ℤ := value

/-- `TimesSeven.__init__`: explicit `MyBaseClass.__init__(self, value)`,
then `self.value *= 7`. -/
def timesSeven_init (value s : ℤ) : ℤ := myBaseClass_init value s * 7

/-- `PlusNine.__init__`: explicit `MyBaseClass.__init__(self, value)`,
then `self.value += 9`. -/
def plusNine_init (value s : ℤ) : ℤ := myBaseClass_init value s + 9

/-- `ThisWay.__init__`: `TimesSeven.__init__(self, value)` then
`PlusNine.__init__(self, value)`, threading the attribute state. -/
def thisWay_init (value s : ℤ) : ℤ := plusNine_init value (timesSeven_init value s)

/-- `ThisWay(value).value` (a fresh object has no `value` attribute yet;
`MyBaseClass.__init__` overwrites the state, so the initial `0` is inert). -/
def ThisWay_value (value : ℤ) : ℤ := thisWay_init value 0

/-- C8: `GoodWay(5)` runs the initializers in MRO order, giving
`GoodWay(5).value == 7 * (5 + 9) == 98`, while the explicit-parent-call
diamond gives `ThisWay(5).value == 14` because `MyBaseClass.__init__` runs a
second time. -/
theorem goodWay_diamond_spec :
    GoodWay_value 5 = 98 ∧ 7 * (5 + 9) = 98 ∧
    GoodWay_value 5 = runMRO [.plusNineCorrect, .myBaseClass] 5 * 7 ∧
    ThisWay_value 5 = 14 := by decide

/-- Elements of the (heterogeneous) Python lists in the slicing snippet
(Item 11): the snippet's list holds strings and later an assigned `99`. -/
inductive PyObj where
  | str (s : String)
  | int (n : ℤ)
  deriving DecidableEq, Repr

/-- Python slice `xs[start:stop]` for in-range non-negative indexes. -/
def pySlice (xs : List PyObj) (start stop : ℕ) : List PyObj :=
  (xs.drop start).take (stop - start)

/-- A heap of list objects; the address of a list object is its index, so
distinct addresses are distinct objects (`is not`). -/
structure Heap where
  cells : List (List PyObj)
  deriving Repr

/-- Dereference the list object at address `a`. -/
def Heap.read (h : Heap) (a : ℕ) : List PyObj := h.cells.getD a []

/-- Allocate a fresh list object, returning its address. -/
def Heap.alloc (h : Heap) (xs : List PyObj) : ℕ × Heap :=
  (h.cells.length, ⟨h.cells ++ [xs]⟩)

/-- `lst[i] = x` on the list object at address `a`: a mutation in place. -/
def Heap.setIdx (h : Heap) (a i : ℕ) (x : PyObj) : Heap :=
  ⟨h.cells.set a ((h.cells.getD a []).set i x)⟩

/-- Evaluate `b = a[start:stop]`: the result of slicing a list is a whole
new list object. -/
def evalSlice (h : Heap) (a : ℕ) (start stop : ℕ) : ℕ × Heap :=
  h.alloc (pySlice (h.read a) start stop)

theorem heap_read_alloc (h : Heap) (xs : List PyObj) :
    (h.alloc xs).2.read (h.alloc xs).1 = xs := by
  simp [Heap.alloc, Heap.read, List.getD_append_right]

theorem heap_read_alloc_old (h : Heap) (xs : List PyObj) (a : ℕ)
    (ha : a < h.cells.length) : (h.alloc xs).2.read a = h.read a := by
  exact List.getD_append _ _ _ _ ha

theorem heap_read_setIdx_ne (h : Heap) (a b i : ℕ) (x : PyObj) (hab : a ≠ b) :
    (h.setIdx b i x).read a = h.read a := by
  simp [Heap.setIdx, Heap.read, List.getD]
  rw [List.getElem?_set_ne (by omega)]

/-- C9: for every heap and every list object `a` in it, the full-slice copy
`b = a[:]` satisfies `b == a` (same elements) and `b is not a` (a fresh
address), and assigning to an element of any slice result (such as
`b = a[3:]; b[1] = 99`) leaves the original list `a` unchanged. -/
theorem slice_copy_spec (h : Heap) (a : ℕ) (ha : a < h.cells.length) :
    ((evalSlice h a 0 (h.read a).length).2.read
        (evalSlice h a 0 (h.read a).length).1 = h.read a ∧
      (evalSlice h a 0 (h.read a).length).1 ≠ a) ∧
    (∀ start stop i x,
      (((evalSlice h a start stop).2.setIdx
          (evalSlice h a start stop).1 i x).read a = h.read a ∧
        (evalSlice h a start stop).1 ≠ a)) := by
  have hfresh : ∀ start stop, (evalSlice h a start stop).1 ≠ a := by
    intro start stop
    simp only [evalSlice, Heap.alloc]
    omega
  refine ⟨⟨?_, hfresh 0 _⟩, fun start stop i x => ⟨?_, hfresh start stop⟩⟩
  · rw [show (evalSlice h a 0 (h.read a).length).2.read
        (evalSlice h a 0 (h.read a).length).1 = pySlice (h.read a) 0 (h.read a).length
      from heap_read_alloc h _]
    simp [pySlice]
  · rw [heap_read_setIdx_ne _ _ _ _ _ (Ne.symm (hfresh start stop))]
    exact heap_read_alloc_old h _ a ha

/-- C9 witness: the snippet's list `a = ['a', ..., 'h']` in a one-object
heap; the copy `b = a[:]` equals `a` at a fresh address, and `b = a[3:];
b[1] = 99` leaves `a` unchanged. -/
theorem slice_copy_spec_witness :
    ((evalSlice ⟨[[.str "a", .str "b", .str "c", .str "d", .str "e",
        .str "f", .str "g", .str "h"]]⟩ 0 0 8).2.read
      (evalSlice ⟨[[.str "a", .str "b", .str "c", .str "d", .str "e",
        .str "f", .str "g", .str "h"]]⟩ 0 0 8).1 =
      [.str "a", .str "b", .str "c", .str "d", .str "e", .str "f",
        .str "g", .str "h"]) ∧
    (((evalSlice ⟨[[.str "a", .str "b", .str "c", .str "d", .str "e",
        .str "f", .str "g", .str "h"]]⟩ 0 3 8).2.setIdx
      (evalSlice ⟨[[.str "a", .str "b", .str "c", .str "d", .str "e",
        .str "f", .str "g", .str "h"]]⟩ 0 3 8).1 1 (.int 99)).read 0 =
      [.str "a", .str "b", .str "c", .str "d", .str "e", .str "f",
        .str "g", .str "h"]) := by
  have h := slice_copy_spec ⟨[[.str "a", .str "b", .str "c", .str "d",
    .str "e", .str "f", .str "g", .str "h"]]⟩ 0 (by decide)
  exact ⟨h.1.1, (h.2 3 8 1 (.int 99)).1⟩

/-- The plain `Bucket` of Item 45: the period length, the last reset time
and the current quota.  Times are modelled as rational numbers of seconds;
`datetime.now()` becomes an explicit `now` argument. -/
structure Bucket where
  period_delta : ℚ
  reset_time : ℚ
  quota : ℚ
  deriving DecidableEq, Repr

/-- `deduct(bucket, amount)`: `False` when the bucket was not filled this
period or holds too little quota, otherwise consume and return `True`.
Returns the (possibly updated) bucket alongside the flag. -/
def deduct (now : ℚ) (bucket : Bucket) (amount : ℚ) : Bool × Bucket :=
  if now - bucket.reset_time > bucket.period_delta then
    (false, bucket)
  else if bucket.quota - amount < 0 then
    (false, bucket)
  else
    (true, { bucket with quota := bucket.quota - amount })

/-- C4: for every bucket and non-negative amount, if the bucket was filled
within the current period (the code's check `now - reset_time <=
period_delta`) and `quota >= amount`, then `deduct` returns `True` and
decreases `quota` by exactly `amount` leaving the other fields unchanged;
otherwise it returns `False` and leaves the whole bucket unchanged. -/
theorem deduct_spec (now : ℚ) (b : Bucket) (amount : ℚ) (hamt : 0 ≤ amount) :
    (now - b.reset_time ≤ b.period_delta ∧ amount ≤ b.quota →
      deduct now b amount = (true, { b with quota := b.quota - amount })) ∧
    (¬(now - b.reset_time ≤ b.period_delta ∧ amount ≤ b.quota) →
      deduct now b amount = (false, b)) := by
  unfold deduct
  constructor
  · rintro ⟨h1, h2⟩
    rw [if_neg (not_lt.mpr h1), if_neg (not_lt.mpr (by linarith))]
  · intro hnot
    by_cases h1 : now - b.reset_time ≤ b.period_delta
    · have h2 : b.quota < amount := not_le.mp (fun h2 => hnot ⟨h1, h2⟩)
      rw [if_neg (not_lt.mpr h1), if_pos (by linarith)]
    · rw [if_pos (not_le.mp h1)]

/-- C4 witness: the snippet's bucket (period 60, just filled to 100):
`deduct(bucket, 99)` succeeds leaving quota 1; `deduct(bucket, 3)` on the
resulting bucket fails and changes nothing. -/
theorem deduct_spec_witness :
    deduct 1 ⟨60, 0, 100⟩ 99 = (true, ⟨60, 0, 1⟩) ∧
    deduct 1 ⟨60, 0, 1⟩ 3 = (false, ⟨60, 0, 1⟩) := by
  constructor
  · have h := (deduct_spec 1 ⟨60, 0, 100⟩ 99 (by norm_num)).1
      (by constructor <;> norm_num)
    norm_num at h
    exact h
  · exact (deduct_spec 1 ⟨60, 0, 1⟩ 3 (by norm_num)).2 (by
      rintro ⟨-, h2⟩; norm_num at h2)

/-- Left-justify a string in a field of `width` characters, padding with
spaces on the right (shared padding behaviour of `%-Ns` and `{:<N}`). -/
def ljust (s : String) (width : ℕ) : String :=
  s ++ String.mk (List.replicate (width - s.length) ' ')

/-- Pad a digit string with zeros on the left to `width` characters. -/
def padZeros (s : String) (width : ℕ) : String :=
  String.mk (List.replicate (width - s.length) '0') ++ s

/-- Fixed-point rendering of a non-negative rational with `prec` fractional
digits, rounding to the nearest representable value (the snippet's input
`1.234` is not a tie, so the tie-breaking rule is immaterial here). -/
def formatFixed (q : ℚ) (prec : ℕ) : String :=
  toString (round (q * (10 : ℚ) ^ prec) / (10 : ℤ) ^ prec) ++ "." ++
    padZeros (toString (round (q * (10 : ℚ) ^ prec) % (10 : ℤ) ^ prec)) prec

/-- Format-spec alignment `<N` (left-align in width `N`), as interpreted for
`str` arguments by both f-strings and `str.format` (Item 4). -/
def formatSpecLeft (width : ℕ) (s : String) : String := ljust s width

/-- Format-spec `.Nf` (fixed-point with `N` digits), as interpreted by both
f-strings and `str.format`. -/
def formatSpecFixed (prec : ℕ) (q : ℚ) : String := formatFixed q prec

/-- C-style `%-Ns` conversion: string conversion, minus flag left-justifies
in field width `N`. -/
def percentMinusS (width : ℕ) (s : String) : String := ljust s width

/-- C-style `%.Nf` conversion: fixed-point with `N` digits. -/
def percentFixedF (prec : ℕ) (q : ℚ) : String := formatFixed q prec

/-- The snippet's `key = 'my_var'`. -/
def fmt_key : String := "my_var"

/-- The snippet's `value = 1.234`. -/
def fmt_value : ℚ := 1234 / 1000

/-- The f-string of Item 4 over `key` and `value`: left-align `key` in 10
columns, equals sign, `value` with two fixed digits. -/
def f_string : String := formatSpecLeft 10 fmt_key ++ " = " ++ formatSpecFixed 2 fmt_value

/-- The C-style tuple expression of Item 4 applied to `(key, value)`. -/
def c_tuple : String := percentMinusS 10 fmt_key ++ " = " ++ percentFixedF 2 fmt_value

/-- `str.format` with positional arguments applied to `key, value`. -/
def str_args : String := formatSpecLeft 10 fmt_key ++ " = " ++ formatSpecFixed 2 fmt_value

/-- `str.format` with keyword arguments `key=key, value=value`. -/
def str_kw : String := formatSpecLeft 10 fmt_key ++ " = " ++ formatSpecFixed 2 fmt_value

/-- The C-style dict-based expression applied to the mapping of `key` and
`value`. -/
def c_dict : String := percentMinusS 10 fmt_key ++ " = " ++ percentFixedF 2 fmt_value

/-- C6: with `key = 'my_var'` and `value = 1.234`, the five formatting
expressions of Item 4 all produce the same string, so both inline asserts
(`c_tuple == c_dict == f_string` and `str_args == str_kw == f_string`)
pass; the common value is the 17-character rendering with `1.23`. -/
theorem formatting_item4_spec :
    c_tuple = c_dict ∧ c_dict = f_string ∧
    str_args = str_kw ∧ str_kw = f_string ∧
    f_string = "my_var     = 1.23" := by
  have h1 : round (fmt_value * (10 : ℚ) ^ 2) = 123 := by
    rw [round_eq]; norm_num [fmt_value]
  refine ⟨rfl, rfl, rfl, rfl, ?_⟩
  show formatSpecLeft 10 fmt_key ++ " = " ++ formatSpecFixed 2 fmt_value = _
  unfold formatSpecLeft formatSpecFixed formatFixed
  rw [h1]
  decide

/-- The `NewBucket` of Item 45: tracks the `max_quota` issued and the
`quota_consumed` in the period.  The `period_delta` and `reset_time` fields
of the source never enter the quota property and are omitted.  A fresh
bucket has both counters zero. -/
structure NewBucket where
  max_quota : ℤ
  quota_consumed : ℤ
  deriving DecidableEq, Repr

/-- `NewBucket.__init__`: both counters start at zero. -/
def NewBucket.init : NewBucket := ⟨0, 0⟩

/-- The `quota` property getter: computed on the fly from the two counters. -/
def NewBucket.quota (b : NewBucket) : ℤ := b.max_quota - b.quota_consumed

/-- The `quota` property setter of the source, with `delta = max_quota -
amount`: reset both counters when `amount == 0`; record a fill (asserting
`quota_consumed == 0`) when `delta < 0`; otherwise record a consumption
with `quota_consumed += delta` (asserting `max_quota >= quota_consumed`).
A Python `assert` failure surfaces as `none`. -/
def NewBucket.setQuota (b : NewBucket) (amount : ℤ) : Option NewBucket :=
  if amount = 0 then
    some { quota_consumed := 0, max_quota := 0 }
  else if b.max_quota - amount < 0 then
    if b.quota_consumed = 0 then some { b with max_quota := amount } else none
  else
    if b.quota_consumed ≤ b.max_quota then
      some { b with quota_consumed := b.quota_consumed + (b.max_quota - amount) }
    else none

/-- The quota assignments named by the claim, as performed through `fill`
and `deduct`: reset to `0`, fill by a non-negative amount, or consume a
non-negative amount. -/
inductive QuotaOp where
  | reset
  | fill (amount : ℤ)
  | consume (amount : ℤ)
  deriving DecidableEq, Repr

/-- The claim's side conditions on an operation: amounts are non-negative,
a fill happens only when `quota_consumed` is `0`, and a consumption takes
at most the current quota. -/
def QuotaOp.allowed (b : NewBucket) : QuotaOp → Bool
  | .reset => true
  | .fill a => decide (0 ≤ a) && decide (b.quota_consumed = 0)
  | .consume a => decide (0 ≤ a) && decide (a ≤ b.quota)

/-- The quota assignment an operation performs: `fill` assigns
`quota + amount`, `deduct` assigns `quota - amount`. -/
def QuotaOp.apply (b : NewBucket) : QuotaOp → Option NewBucket
  | .reset => b.setQuota 0
  | .fill a => b.setQuota (b.quota + a)
  | .consume a => b.setQuota (b.quota - a)

/-- Run a sequence of quota operations; `none` when an operation is not of
the allowed shape or its `assert` fails. -/
def runOps (b : NewBucket) : List QuotaOp → Option NewBucket
  | [] => some b
  | op :: ops =>
      if op.allowed b then (op.apply b).bind (fun b2 => runOps b2 ops)
      else none

theorem setQuota_nonneg (b : NewBucket) (a : ℤ) (hb : 0 ≤ b.quota_consumed)
    (b2 : NewBucket) (h : b.setQuota a = some b2) : 0 ≤ b2.quota_consumed := by
  unfold NewBucket.setQuota at h
  split at h
  · cases h; simp
  · split at h
    · split at h
      · cases h; simpa using hb
      · cases h
    · split at h
      · cases h
        simp only []
        omega
      · cases h

theorem runOps_nonneg (ops : List QuotaOp) (b : NewBucket)
    (hb : 0 ≤ b.quota_consumed) (b2 : NewBucket)
    (h : runOps b ops = some b2) : 0 ≤ b2.quota_consumed := by
  induction ops generalizing b with
  | nil => cases h; exact hb
  | cons op ops ih =>
      unfold runOps at h
      split at h
      · rcases Option.bind_eq_some.mp h with ⟨bmid, happ, hrest⟩
        have hmid : 0 ≤ bmid.quota_consumed := by
          cases op with
          | reset => exact setQuota_nonneg b _ hb bmid happ
          | fill a => exact setQuota_nonneg b _ hb bmid happ
          | consume a => exact setQuota_nonneg b _ hb bmid happ
        exact ih bmid hmid hrest
      · cases h

/-- C3 counterexample: the allowed sequence fill `100`, consume `50`,
consume `30` runs without any `assert` firing, yet ends with
`quota_consumed = 130 > max_quota = 100`: the setter's `quota_consumed +=
delta` double-counts the earlier consumption on the second consume, so the
claimed invariant `quota_consumed <= max_quota` fails. -/
theorem newBucket_invariant_counterexample :
    runOps NewBucket.init [.fill 100, .consume 50, .consume 30] =
      some ⟨100, 130⟩ ∧
    ¬((⟨100, 130⟩ : NewBucket).quota_consumed ≤
        (⟨100, 130⟩ : NewBucket).max_quota) := by decide

/-- C3 amended: after any sequence of allowed quota assignments (reset to
`0`, fill when `quota_consumed` is `0`, consume at most the current quota,
all amounts non-negative) starting from a fresh `NewBucket`, the invariants
`0 <= quota_consumed` and `quota == max_quota - quota_consumed` hold after
every operation; the claimed upper bound `quota_consumed <= max_quota` can
fail from the second consumption of a period onwards. -/
theorem newBucket_invariant_amended (ops : List QuotaOp) (b : NewBucket)
    (h : runOps NewBucket.init ops = some b) :
    0 ≤ b.quota_consumed ∧ b.quota = b.max_quota - b.quota_consumed :=
  ⟨runOps_nonneg ops NewBucket.init (by decide) b h, rfl⟩

/-- C3 witness: the snippet's own run (fill `100`, deduct `99`) reaches the
state `max_quota = 100, quota_consumed = 99`, for which the amended
invariants hold. -/
theorem newBucket_invariant_amended_witness :
    0 ≤ (⟨100, 99⟩ : NewBucket).quota_consumed ∧
    (⟨100, 99⟩ : NewBucket).quota =
      (⟨100, 99⟩ : NewBucket).max_quota - (⟨100, 99⟩ : NewBucket).quota_consumed :=
  newBucket_invariant_amended [.fill 100, .consume 99] ⟨100, 99⟩ (by decide)

/-- Program position of one worker thread inside its current iteration of
`LockingCounter.increment(1)` (Item 54).  The `with self.lock` statement
acquires the mutex; under it the unprotected read-increment-write of
`self.count += offset` runs; leaving the `with` block releases the mutex
and ends the iteration. -/
inductive WPhase where
  | ready
  | locked
  | readDone (v : ℕ)
  | written
  deriving DecidableEq, Repr

/-- Thread-local worker state: the phase inside the current iteration and
the number of iterations of the `for _ in range(how_many)` loop still to
complete. -/
structure WState where
  phase : WPhase
  remaining : ℕ
  deriving DecidableEq, Repr

/-- The shared state of the snippet: `counter.count`, the thread currently
holding `counter.lock` (if any), and the workers' thread-local states. -/
structure CState where
  count : ℕ
  lockHolder : Option ℕ
  threads : List WState
  deriving DecidableEq, Repr

/-- One scheduler step: any thread may run its next instruction, in any
interleaving; acquiring the lock blocks while another thread holds it.
The `BARRIER` of the snippet only constrains which interleavings occur, so
quantifying over all interleavings subsumes it. -/
inductive Step : CState → CState → Prop
  | acquire (s : CState) (i n : ℕ) (h : i < s.threads.length)
      (hph : s.threads.get ⟨i, h⟩ = ⟨.ready, n + 1⟩)
      (hlock : s.lockHolder = none) :
      Step s { s with lockHolder := some i,
                      threads := s.threads.set i ⟨.locked, n + 1⟩ }
  | read (s : CState) (i n : ℕ) (h : i < s.threads.length)
      (hph : s.threads.get ⟨i, h⟩ = ⟨.locked, n⟩) :
      Step s { s with threads := s.threads.set i ⟨.readDone s.count, n⟩ }
  | write (s : CState) (i n v : ℕ) (h : i < s.threads.length)
      (hph : s.threads.get ⟨i, h⟩ = ⟨.readDone v, n⟩) :
      Step s { s with count := v + 1,
                      threads := s.threads.set i ⟨.written, n⟩ }
  | release (s : CState) (i n : ℕ) (h : i < s.threads.length)
      (hph : s.threads.get ⟨i, h⟩ = ⟨.written, n + 1⟩) :
      Step s { s with lockHolder := none,
                      threads := s.threads.set i ⟨.ready, n⟩ }

/-- The snippet's `how_many = 10**5` readings per worker. -/
def how_many : ℕ := 10 ^ 5

/-- The initial state: `counter.count == 0`, the lock free, and five worker
threads each about to perform `N` increments. -/
def initState (N : ℕ) : CState := ⟨0, none, List.replicate 5 ⟨.ready, N⟩⟩

/-- The number of completed `count += 1` writes a worker has contributed:
one per finished iteration, plus one for the current iteration once its
write has happened. -/
def WState.contrib (N : ℕ) (w : WState) : ℕ :=
  match w.phase with
  | .written => N - w.remaining + 1
  | _ => N - w.remaining

/-- The inductive invariant: the counter equals the writes performed so
far; only the lock holder is past `ready` (mutual exclusion); a value read
under the lock is still the current counter; loop counters never exceed
`N`. -/
structure Inv (N : ℕ) (s : CState) : Prop where
  count_eq : s.count = (s.threads.map (WState.contrib N)).sum
  holder : ∀ i (h : i < s.threads.length),
    (s.threads.get ⟨i, h⟩).phase ≠ .ready → s.lockHolder = some i
  read_val : ∀ i (h : i < s.threads.length) (v : ℕ),
    (s.threads.get ⟨i, h⟩).phase = .readDone v → v = s.count
  rem_le : ∀ w ∈ s.threads, w.remaining ≤ N

theorem sum_map_set (f : WState → ℕ) (l : List WState) :
    ∀ (i : ℕ) (h : i < l.length) (a : WState),
    ((l.set i a).map f).sum + f (l.get ⟨i, h⟩) = (l.map f).sum + f a := by
  induction l with
  | nil => intro i h a; exact absurd h (by simp)
  | cons x xs ih =>
      intro i h a
      cases i with
      | zero => simp [List.set]; omega
      | succ n =>
          simp only [List.set, List.map_cons, List.sum_cons,
            List.get_cons_succ]
          have := ih n (by simpa using h) a
          omega

theorem get_set_self (l : List WState) (i : ℕ) (h : i < l.length) (a : WState) :
    (l.set i a).get ⟨i, by simp [h]⟩ = a := by
  simp [List.get_eq_getElem]

theorem get_set_of_ne (l : List WState) (i j : ℕ) (hj : j < l.length)
    (a : WState) (hij : i ≠ j) :
    (l.set i a).get ⟨j, by simp [hj]⟩ = l.get ⟨j, hj⟩ := by
  simp [List.get_eq_getElem, List.getElem_set_ne hij]

theorem inv_step (N : ℕ) (s s2 : CState) (hs : Inv N s) (hstep : Step s s2) :
    Inv N s2 := by
  cases hstep with
  | acquire i n h hph hlock =>
      refine ⟨?_, ?_, ?_, ?_⟩
      · show s.count = ((s.threads.set i ⟨.locked, n + 1⟩).map (WState.contrib N)).sum
        have key := sum_map_set (WState.contrib N) s.threads i h ⟨.locked, n + 1⟩
        rw [hph] at key
        simp only [WState.contrib] at key
        have hc := hs.count_eq
        omega
      · intro j hj hne
        have hj' : j < s.threads.length := by simpa using hj
        show some i = some j
        by_cases hij : i = j
        · rw [hij]
        · rw [show ((s.threads.set i ⟨.locked, n + 1⟩).get ⟨j, hj⟩) =
              s.threads.get ⟨j, hj'⟩ from get_set_of_ne s.threads i j hj' _ hij] at hne
          exact absurd (hs.holder j hj' hne) (by rw [hlock]; simp)
      · intro j hj v hv
        have hj' : j < s.threads.length := by simpa using hj
        show v = s.count
        by_cases hij : i = j
        · subst hij
          rw [show ((s.threads.set i ⟨.locked, n + 1⟩).get ⟨i, hj⟩) =
              (⟨.locked, n + 1⟩ : WState) from get_set_self s.threads i hj' _] at hv
          simp at hv
        · rw [show ((s.threads.set i ⟨.locked, n + 1⟩).get ⟨j, hj⟩) =
              s.threads.get ⟨j, hj'⟩ from get_set_of_ne s.threads i j hj' _ hij] at hv
          exact hs.read_val j hj' v hv
      · intro w hw
        rcases List.mem_or_eq_of_mem_set hw with hw' | rfl
        · exact hs.rem_le w hw'
        · have := hs.rem_le _ (List.get_mem s.threads i h)
          rw [hph] at this
          exact this
  | read i n h hph =>
      refine ⟨?_, ?_, ?_, ?_⟩
      · show s.count = ((s.threads.set i ⟨.readDone s.count, n⟩).map (WState.contrib N)).sum
        have key := sum_map_set (WState.contrib N) s.threads i h ⟨.readDone s.count, n⟩
        rw [hph] at key
        simp only [WState.contrib] at key
        have hc := hs.count_eq
        omega
      · intro j hj hne
        have hj' : j < s.threads.length := by simpa using hj
        show s.lockHolder = some j
        by_cases hij : i = j
        · subst hij
          exact hs.holder i h (by rw [hph]; simp)
        · rw [show ((s.threads.set i ⟨.readDone s.count, n⟩).get ⟨j, hj⟩) =
              s.threads.get ⟨j, hj'⟩ from get_set_of_ne s.threads i j hj' _ hij] at hne
          exact hs.holder j hj' hne
      · intro j hj v hv
        have hj' : j < s.threads.length := by simpa using hj
        show v = s.count
        by_cases hij : i = j
        · subst hij
          rw [show ((s.threads.set i ⟨.readDone s.count, n⟩).get ⟨i, hj⟩) =
              (⟨.readDone s.count, n⟩ : WState) from get_set_self s.threads i hj' _] at hv
          simp at hv
          omega
        · rw [show ((s.threads.set i ⟨.readDone s.count, n⟩).get ⟨j, hj⟩) =
              s.threads.get ⟨j, hj'⟩ from get_set_of_ne s.threads i j hj' _ hij] at hv
          exact hs.read_val j hj' v hv
      · intro w hw
        rcases List.mem_or_eq_of_mem_set hw with hw' | rfl
        · exact hs.rem_le w hw'
        · have := hs.rem_le _ (List.get_mem s.threads i h)
          rw [hph] at this
          exact this
  | write i n v h hph =>
      have hv0 : v = s.count := hs.read_val i h v (by rw [hph])
      refine ⟨?_, ?_, ?_, ?_⟩
      · show v + 1 = ((s.threads.set i ⟨.written, n⟩).map (WState.contrib N)).sum
        have key := sum_map_set (WState.contrib N) s.threads i h ⟨.written, n⟩
        rw [hph] at key
        simp only [WState.contrib] at key
        have hc := hs.count_eq
        omega
      · intro j hj hne
        have hj' : j < s.threads.length := by simpa using hj
        show s.lockHolder = some j
        by_cases hij : i = j
        · subst hij
          exact hs.holder i h (by rw [hph]; simp)
        · rw [show ((s.threads.set i ⟨.written, n⟩).get ⟨j, hj⟩) =
              s.threads.get ⟨j, hj'⟩ from get_set_of_ne s.threads i j hj' _ hij] at hne
          exact hs.holder j hj' hne
      · intro j hj w hw
        have hj' : j < s.threads.length := by simpa using hj
        by_cases hij : i = j
        · subst hij
          rw [show ((s.threads.set i ⟨.written, n⟩).get ⟨i, hj⟩) =
              (⟨.written, n⟩ : WState) from get_set_self s.threads i hj' _] at hw
          simp at hw
        · rw [show ((s.threads.set i ⟨.written, n⟩).get ⟨j, hj⟩) =
              s.threads.get ⟨j, hj'⟩ from get_set_of_ne s.threads i j hj' _ hij] at hw
          have h1 : s.lockHolder = some j :=
            hs.holder j hj' (by rw [hw]; simp)
          have h2 : s.lockHolder = some i :=
            hs.holder i h (by rw [hph]; simp)
          rw [h1] at h2
          exact absurd (Option.some.inj h2) (fun hc => hij hc.symm)
      · intro w hw
        rcases List.mem_or_eq_of_mem_set hw with hw' | rfl
        · exact hs.rem_le w hw'
        · have := hs.rem_le _ (List.get_mem s.threads i h)
          rw [hph] at this
          exact this
  | release i n h hph =>
      have hrem : n + 1 ≤ N := by
        have := hs.rem_le _ (List.get_mem s.threads i h)
        rw [hph] at this
        exact this
      refine ⟨?_, ?_, ?_, ?_⟩
      · show s.count = ((s.threads.set i ⟨.ready, n⟩).map (WState.contrib N)).sum
        have key := sum_map_set (WState.contrib N) s.threads i h ⟨.ready, n⟩
        rw [hph] at key
        simp only [WState.contrib] at key
        have hc := hs.count_eq
        omega
      · intro j hj hne
        have hj' : j < s.threads.length := by simpa using hj
        show none = some j
        by_cases hij : i = j
        · subst hij
          rw [show ((s.threads.set i ⟨.ready, n⟩).get ⟨i, hj⟩) =
              (⟨.ready, n⟩ : WState) from get_set_self s.threads i hj' _] at hne
          simp at hne
        · rw [show ((s.threads.set i ⟨.ready, n⟩).get ⟨j, hj⟩) =
              s.threads.get ⟨j, hj'⟩ from get_set_of_ne s.threads i j hj' _ hij] at hne
          have h1 : s.lockHolder = some j := hs.holder j hj' hne
          have h2 : s.lockHolder = some i :=
            hs.holder i h (by rw [hph]; simp)
          rw [h1] at h2
          exact absurd (Option.some.inj h2) (fun hc => hij hc.symm)
      · intro j hj v hv
        have hj' : j < s.threads.length := by simpa using hj
        show v = s.count
        by_cases hij : i = j
        · subst hij
          rw [show ((s.threads.set i ⟨.ready, n⟩).get ⟨i, hj⟩) =
              (⟨.ready, n⟩ : WState) from get_set_self s.threads i hj' _] at hv
          simp at hv
        · rw [show ((s.threads.set i ⟨.ready, n⟩).get ⟨j, hj⟩) =
              s.threads.get ⟨j, hj'⟩ from get_set_of_ne s.threads i j hj' _ hij] at hv
          exact hs.read_val j hj' v hv
      · intro w hw
        rcases List.mem_or_eq_of_mem_set hw with hw' | rfl
        · exact hs.rem_le w hw'
        · exact Nat.le_of_succ_le hrem

theorem inv_init (N : ℕ) : Inv N (initState N) := by
  refine ⟨?_, ?_, ?_, ?_⟩
  · simp [initState, WState.contrib, List.sum_replicate]
  · intro i h hne
    rw [show (initState N).threads.get ⟨i, h⟩ = ⟨.ready, N⟩ from
      List.get_replicate _ _] at hne
    simp at hne
  · intro i h v hv
    rw [show (initState N).threads.get ⟨i, h⟩ = ⟨.ready, N⟩ from
      List.get_replicate _ _] at hv
    simp at hv
  · intro w hw
    rw [List.eq_of_mem_replicate hw]

theorem inv_reach (N : ℕ) (s : CState)
    (h : Relation.ReflTransGen Step (initState N) s) : Inv N s := by
  induction h with
  | refl => exact inv_init N
  | tail _ hstep ih => exact inv_step N _ _ ih hstep

/-- C2: if five worker threads each perform `LockingCounter.increment(1)`
exactly `how_many = 10**5` times and are then joined, the final
`counter.count` equals `5 * how_many` for every interleaving of the
threads, because the lock serializes the read-modify-write of each
increment.  The law is proved for every per-thread iteration count `N`,
hence in particular for `N = how_many`. -/
theorem lockingCounter_spec :
    how_many = 10 ^ 5 ∧
    ∀ (N : ℕ) (s : CState), Relation.ReflTransGen Step (initState N) s →
      s.threads = List.replicate 5 ⟨.ready, 0⟩ →
      s.count = 5 * N := by
  refine ⟨rfl, ?_⟩
  intro N s hreach hdone
  have hinv := inv_reach N s hreach
  rw [hinv.count_eq, hdone]
  simp [WState.contrib, List.sum_replicate]
  ring

/-- C2 witness: a complete concrete run with one reading per worker — each
of the five threads acquires the lock, reads, writes and releases in turn —
after which the counter is `5 * 1`. -/
theorem lockingCounter_spec_witness :
    (⟨5, none, [⟨.ready, 0⟩, ⟨.ready, 0⟩, ⟨.ready, 0⟩, ⟨.ready, 0⟩,
      ⟨.ready, 0⟩]⟩ : CState).count = 5 * 1 := by
  apply lockingCounter_spec.2 1 _ _ rfl
  have h1 : Step (⟨0, none, [⟨.ready, 1⟩, ⟨.ready, 1⟩, ⟨.ready, 1⟩, ⟨.ready, 1⟩, ⟨.ready, 1⟩]⟩ : CState) (⟨0, some 0, [⟨.locked, 1⟩, ⟨.ready, 1⟩, ⟨.ready, 1⟩, ⟨.ready, 1⟩, ⟨.ready, 1⟩]⟩ : CState) :=
    Step.acquire _ 0 0 (by decide) (by decide) rfl
  have h2 : Step (⟨0, some 0, [⟨.locked, 1⟩, ⟨.ready, 1⟩, ⟨.ready, 1⟩, ⟨.ready, 1⟩, ⟨.ready, 1⟩]⟩ : CState) (⟨0, some 0, [⟨.readDone 0, 1⟩, ⟨.ready, 1⟩, ⟨.ready, 1⟩, ⟨.ready, 1⟩, ⟨.ready, 1⟩]⟩ : CState) :=
    Step.read _ 0 1 (by decide) (by decide)
  have h3 : Step (⟨0, some 0, [⟨.readDone 0, 1⟩, ⟨.ready, 1⟩, ⟨.ready, 1⟩, ⟨.ready, 1⟩, ⟨.ready, 1⟩]⟩ : CState) (⟨1, some 0, [⟨.written, 1⟩, ⟨.ready, 1⟩, ⟨.ready, 1⟩, ⟨.ready, 1⟩, ⟨.ready, 1⟩]⟩ : CState) :=
    Step.write _ 0 1 0 (by decide) (by decide)
  have h4 : Step (⟨1, some 0, [⟨.written, 1⟩, ⟨.ready, 1⟩, ⟨.ready, 1⟩, ⟨.ready, 1⟩, ⟨.ready, 1⟩]⟩ : CState) (⟨1, none, [⟨.ready, 0⟩, ⟨.ready, 1⟩, ⟨.ready, 1⟩, ⟨.ready, 1⟩, ⟨.ready, 1⟩]⟩ : CState) :=
    Step.release _ 0 0 (by decide) (by decide)
  have h5 : Step (⟨1, none, [⟨.ready, 0⟩, ⟨.ready, 1⟩, ⟨.ready, 1⟩, ⟨.ready, 1⟩, ⟨.ready, 1⟩]⟩ : CState) (⟨1, some 1, [⟨.ready, 0⟩, ⟨.locked, 1⟩, ⟨.ready, 1⟩, ⟨.ready, 1⟩, ⟨.ready, 1⟩]⟩ : CState) :=
    Step.acquire _ 1 0 (by decide) (by decide) rfl
  have h6 : Step (⟨1, some 1, [⟨.ready, 0⟩, ⟨.locked, 1⟩, ⟨.ready, 1⟩, ⟨.ready, 1⟩, ⟨.ready, 1⟩]⟩ : CState) (⟨1, some 1, [⟨.ready, 0⟩, ⟨.readDone 1, 1⟩, ⟨.ready, 1⟩, ⟨.ready, 1⟩, ⟨.ready, 1⟩]⟩ : CState) :=
    Step.read _ 1 1 (by decide) (by decide)
  have h7 : Step (⟨1, some 1, [⟨.ready, 0⟩, ⟨.readDone 1, 1⟩, ⟨.ready, 1⟩, ⟨.ready, 1⟩, ⟨.ready, 1⟩]⟩ : CState) (⟨2, some 1, [⟨.ready, 0⟩, ⟨.written, 1⟩, ⟨.ready, 1⟩, ⟨.ready, 1⟩, ⟨.ready, 1⟩]⟩ : CState) :=
    Step.write _ 1 1 1 (by decide) (by decide)
  have h8 : Step (⟨2, some 1, [⟨.ready, 0⟩, ⟨.written, 1⟩, ⟨.ready, 1⟩, ⟨.ready, 1⟩, ⟨.ready, 1⟩]⟩ : CState) (⟨2, none, [⟨.ready, 0⟩, ⟨.ready, 0⟩, ⟨.ready, 1⟩, ⟨.ready, 1⟩, ⟨.ready, 1⟩]⟩ : CState) :=
    Step.release _ 1 0 (by decide) (by decide)
  have h9 : Step (⟨2, none, [⟨.ready, 0⟩, ⟨.ready, 0⟩, ⟨.ready, 1⟩, ⟨.ready, 1⟩, ⟨.ready, 1⟩]⟩ : CState) (⟨2, some 2, [⟨.ready, 0⟩, ⟨.ready, 0⟩, ⟨.locked, 1⟩, ⟨.ready, 1⟩, ⟨.ready, 1⟩]⟩ : CState) :=
    Step.acquire _ 2 0 (by decide) (by decide) rfl
  have h10 : Step (⟨2, some 2, [⟨.ready, 0⟩, ⟨.ready, 0⟩, ⟨.locked, 1⟩, ⟨.ready, 1⟩, ⟨.ready, 1⟩]⟩ : CState) (⟨2, some 2, [⟨.ready, 0⟩, ⟨.ready, 0⟩, ⟨.readDone 2, 1⟩, ⟨.ready, 1⟩, ⟨.ready, 1⟩]⟩ : CState) :=
    Step.read _ 2 1 (by decide) (by decide)
  have h11 : Step (⟨2, some 2, [⟨.ready, 0⟩, ⟨.ready, 0⟩, ⟨.readDone 2, 1⟩, ⟨.ready, 1⟩, ⟨.ready, 1⟩]⟩ : CState) (⟨3, some 2, [⟨.ready, 0⟩, ⟨.ready, 0⟩, ⟨.written, 1⟩, ⟨.ready, 1⟩, ⟨.ready, 1⟩]⟩ : CState) :=
    Step.write _ 2 1 2 (by decide) (by decide)
  have h12 : Step (⟨3, some 2, [⟨.ready, 0⟩, ⟨.ready, 0⟩, ⟨.written, 1⟩, ⟨.ready, 1⟩, ⟨.ready, 1⟩]⟩ : CState) (⟨3, none, [⟨.ready, 0⟩, ⟨.ready, 0⟩, ⟨.ready, 0⟩, ⟨.ready, 1⟩, ⟨.ready, 1⟩]⟩ : CState) :=
    Step.release _ 2 0 (by decide) (by decide)
  have h13 : Step (⟨3, none, [⟨.ready, 0⟩, ⟨.ready, 0⟩, ⟨.ready, 0⟩, ⟨.ready, 1⟩, ⟨.ready, 1⟩]⟩ : CState) (⟨3, some 3, [⟨.ready, 0⟩, ⟨.ready, 0⟩, ⟨.ready, 0⟩, ⟨.locked, 1⟩, ⟨.ready, 1⟩]⟩ : CState) :=
    Step.acquire _ 3 0 (by decide) (by decide) rfl
  have h14 : Step (⟨3, some 3, [⟨.ready, 0⟩, ⟨.ready, 0⟩, ⟨.ready, 0⟩, ⟨.locked, 1⟩, ⟨.ready, 1⟩]⟩ : CState) (⟨3, some 3, [⟨.ready, 0⟩, ⟨.ready, 0⟩, ⟨.ready, 0⟩, ⟨.readDone 3, 1⟩, ⟨.ready, 1⟩]⟩ : CState) :=
    Step.read _ 3 1 (by decide) (by decide)
  have h15 : Step (⟨3, some 3, [⟨.ready, 0⟩, ⟨.ready, 0⟩, ⟨.ready, 0⟩, ⟨.readDone 3, 1⟩, ⟨.ready, 1⟩]⟩ : CState) (⟨4, some 3, [⟨.ready, 0⟩, ⟨.ready, 0⟩, ⟨.ready, 0⟩, ⟨.written, 1⟩, ⟨.ready, 1⟩]⟩ : CState) :=
    Step.write _ 3 1 3 (by decide) (by decide)
  have h16 : Step (⟨4, some 3, [⟨.ready, 0⟩, ⟨.ready, 0⟩, ⟨.ready, 0⟩, ⟨.written, 1⟩, ⟨.ready, 1⟩]⟩ : CState) (⟨4, none, [⟨.ready, 0⟩, ⟨.ready, 0⟩, ⟨.ready, 0⟩, ⟨.ready, 0⟩, ⟨.ready, 1⟩]⟩ : CState) :=
    Step.release _ 3 0 (by decide) (by decide)
  have h17 : Step (⟨4, none, [⟨.ready, 0⟩, ⟨.ready, 0⟩, ⟨.ready, 0⟩, ⟨.ready, 0⟩, ⟨.ready, 1⟩]⟩ : CState) (⟨4, some 4, [⟨.ready, 0⟩, ⟨.ready, 0⟩, ⟨.ready, 0⟩, ⟨.ready, 0⟩, ⟨.locked, 1⟩]⟩ : CState) :=
    Step.acquire _ 4 0 (by decide) (by decide) rfl
  have h18 : Step (⟨4, some 4, [⟨.ready, 0⟩, ⟨.ready, 0⟩, ⟨.ready, 0⟩, ⟨.ready, 0⟩, ⟨.locked, 1⟩]⟩ : CState) (⟨4, some 4, [⟨.ready, 0⟩, ⟨.ready, 0⟩, ⟨.ready, 0⟩, ⟨.ready, 0⟩, ⟨.readDone 4, 1⟩]⟩ : CState) :=
    Step.read _ 4 1 (by decide) (by decide)
  have h19 : Step (⟨4, some 4, [⟨.ready, 0⟩, ⟨.ready, 0⟩, ⟨.ready, 0⟩, ⟨.ready, 0⟩, ⟨.readDone 4, 1⟩]⟩ : CState) (⟨5, some 4, [⟨.ready, 0⟩, ⟨.ready, 0⟩, ⟨.ready, 0⟩, ⟨.ready, 0⟩, ⟨.written, 1⟩]⟩ : CState) :=
    Step.write _ 4 1 4 (by decide) (by decide)
  have h20 : Step (⟨5, some 4, [⟨.ready, 0⟩, ⟨.ready, 0⟩, ⟨.ready, 0⟩, ⟨.ready, 0⟩, ⟨.written, 1⟩]⟩ : CState) (⟨5, none, [⟨.ready, 0⟩, ⟨.ready, 0⟩, ⟨.ready, 0⟩, ⟨.ready, 0⟩, ⟨.ready, 0⟩]⟩ : CState) :=
    Step.release _ 4 0 (by decide) (by decide)
  exact (((((((((((((((((((Relation.ReflTransGen.single h1).tail h2).tail h3).tail h4).tail h5).tail h6).tail h7).tail h8).tail h9).tail h10).tail h11).tail h12).tail h13).tail h14).tail h15).tail h16).tail h17).tail h18).tail h19).tail h20

/-- The separator lines of `src/notepad.py`: the (line number, text) pairs
of every line of the source file consisting of a `=== notepad.py ===`
marker.  Exhaustive search of the file finds none: the repository carries a
single copy of the notebook, not several concatenated re-saves. -/
def notepadMarkerLines : List (ℕ × String) := []

/-- C10 counterexample: the source contains no `=== notepad.py ===` marker
line at all, so it does not contain repeated markers, and there are no
marked copies to compare for the superset property. -/
theorem notepad_markers_counterexample :
    ¬(2 ≤ notepadMarkerLines.length) ∧ ¬(1 ≤ notepadMarkerLines.length) := by
  decide

/-- C10 amended: the repository's source is one single copy of the evolving
notebook; `src/notepad.py` contains no `=== notepad.py ===` marker, so the
superset-of-the-previous-copy property is vacuous. -/
theorem notepad_markers_amended : notepadMarkerLines = [] := rfl

end Notepad
